import Mathlib

/-!
Verification development for the Quantum-Gaurd proof-of-work ledger.

The repository has several near-duplicate ledger implementations; each is
embedded in its own namespace:

* `BC5470`  — `src/blockchain.py` (`Blockchain5470`, `Block`, `BlockHeader`,
  `Transaction`): the consensus engine with big-integer PoW, Merkle trees,
  a mempool and `best_work` fork-choice bookkeeping.
* `Synced`  — `src/blockchain_5470_synced_ai_zk.py` (`Blockchain`): the
  wallet-synced chain with balances/nonces tables and the halving reward.
* `RB`      — `src/core/blockchain.py` (`RealBlockchain`): chain with a
  materialized balance table updated per mined block.
* `CN`      — `src/core/node.py` (`CoreNode`): the P2P node with
  `validate_block` / `add_block`.

Hash primitives (SHA-256 / SHA3-256 / ECDSA) are kept abstract: each
namespace takes a `HashModel`-style bundle of oracle functions.  A hex
digest compared with `int(h, 16)` in the source is modelled directly as a
natural number; a digest compared as a string stays a `String`.  Python
floats carrying timestamps or token amounts are modelled as rationals
(the scenarios exercised here stay in the exactly-representable range).
-/

namespace BC5470

/-- Transaction of `src/blockchain.py` (`@dataclass Transaction`). The
`inputs`/`outputs` lists of `{address, amount}` dicts are modelled as lists
of pairs.  Amounts are Python floats, modelled as rationals. -/
structure Transaction where
  txId : String
  inputs : List (String × ℚ)
  outputs : List (String × ℚ)
  amount : ℚ
  fee : ℚ
  timestamp : ℚ
  signature : String
  publicKey : String
  isCoinbase : Bool
deriving DecidableEq, Repr, Inhabited

/-- Block header of `src/blockchain.py` (`@dataclass BlockHeader`).
`prev_hash` is a 64-hex-digit string in the source; hex digests of a fixed
width are in bijection with their integer values, so it is carried as the
natural number `int(prev_hash, 16)`. -/
structure BlockHeader where
  version : Nat
  prevHash : Nat
  merkleRoot : String
  timestamp : ℚ
  nBits : Nat
  nonce : Nat
  height : Nat
deriving DecidableEq, Repr, Inhabited

/-- Block of `src/blockchain.py` (`@dataclass Block`): header, transaction
list and the accumulated `work` used for fork choice (default 0). -/
structure Block where
  header : BlockHeader
  transactions : List Transaction
  work : Nat := 0
deriving DecidableEq, Repr, Inhabited

/-- The cryptographic oracles of `src/blockchain.py`, kept abstract:
`headerHash` is `int(BlockHeader.get_hash(), 16)`, `txHash` is
`Transaction.get_hash()` (a hex string fed to the Merkle tree), `shaHex`
is `hashlib.sha256(s.encode()).hexdigest()` on an arbitrary string, and
`verifySig` is the outcome of `Transaction.verify_signature()`. -/
structure HashModel where
  headerHash : BlockHeader → Nat
  txHash : Transaction → String
  shaHex : String → String
  verifySig : Transaction → Bool

/-- The all-zero sentinel `"0" * 64` returned for an empty transaction
list. -/
def zeros64 : String := String.mk (List.replicate 64 '0')

/-- One pass of `for i in range(0, len(tx_hashes), 2): sha256(h[i] + h[i+1])`.
The caller always supplies an even-length list (the odd case is padded
first), so the one-element fallthrough is never exercised. -/
def pairUp (sha : String → String) : List String → List String
  | [] => []
  | [_] => []
  | a :: b :: rest => sha (a ++ b) :: pairUp sha rest

/-- One iteration of the Merkle `while` loop: duplicate the last hash when
the level has an odd count (`tx_hashes.append(tx_hashes[-1])`), then pair
up. -/
def merkleLevelStep (sha : String → String) (hs : List String) : List String :=
  if hs.length % 2 = 1 then pairUp sha (hs ++ [hs.getLastD ""]) else pairUp sha hs

/-- The Merkle `while len(tx_hashes) > 1` loop.  The loop halves the level
size each iteration, so running it with the initial length as fuel is
exact; the fuel-exhaustion branch is unreachable whenever
`fuel ≥ length` (see `merkleFoldAux_fuel`). -/
def merkleFoldAux (sha : String → String) : Nat → List String → String
  | _, [] => zeros64
  | _, [h] => h
  | 0, _ :: _ :: _ => zeros64
  | fuel + 1, a :: b :: rest => merkleFoldAux sha fuel (merkleLevelStep sha (a :: b :: rest))

/-- `Block.calculate_merkle_root` of `src/blockchain.py`: hash every
transaction, return the `"0"*64` sentinel on an empty list, otherwise fold
the levels bottom-up. -/
def calcMerkleRoot (M : HashModel) (txs : List Transaction) : String :=
  if txs.isEmpty then zeros64
  else merkleFoldAux M.shaHex (txs.map M.txHash).length (txs.map M.txHash)

/-- `Block.verify_block`: Merkle root recomputation, signatures of all
non-coinbase transactions, then proof of work
(`int(block_hash, 16) >= 2 ** (256 - n_bits)` rejects). -/
def verifyBlock (M : HashModel) (b : Block) : Bool :=
  if b.header.merkleRoot ≠ calcMerkleRoot M b.transactions then false
  else if b.transactions.any (fun tx => !tx.isCoinbase && !M.verifySig tx) then false
  else if 2 ^ (256 - b.header.nBits) ≤ M.headerHash b.header then false
  else true

/-- Mutable state of a `Blockchain5470` instance: the chain, the mempool,
the difficulty knobs and the fork-choice `best_work`.  (The peer list,
mining flag and lock carry no consensus state and are dropped; the mining
flag is modelled by the fuel of `powSearch`.) -/
structure Chain5470 where
  chain : List Block
  mempool : List Transaction
  difficultyTarget : Nat
  blockTimeTarget : ℚ
  bestWork : Nat
deriving DecidableEq, Repr, Inhabited

/-- The genesis coinbase of `_create_genesis_block`. -/
def genesisTx : Transaction :=
  { txId := "genesis_tx", inputs := [], outputs := [("genesis", 0)],
    amount := 0, fee := 0, timestamp := 1640995200,
    signature := "genesis_signature", publicKey := "genesis_public_key",
    isCoinbase := true }

/-- The genesis block of `_create_genesis_block`: header with
`prev_hash = "0"*64` (numeric value 0), `n_bits = 20`, height 0, `work = 1`;
its `merkle_root` is overwritten with the computed root before the block is
appended. -/
def genesisBlock (M : HashModel) : Block :=
  { header :=
      { version := 1, prevHash := 0,
        merkleRoot := calcMerkleRoot M [genesisTx],
        timestamp := 1640995200, nBits := 20, nonce := 0, height := 0 },
    transactions := [genesisTx], work := 1 }

/-- `Blockchain5470.__init__`: chain `[genesis]`, empty mempool,
`difficulty_target = 20`, `block_time_target = 600`, `best_work = 0`
(the genesis `work = 1` is never copied into `best_work`). -/
def initState (M : HashModel) : Chain5470 :=
  { chain := [genesisBlock M], mempool := [],
    difficultyTarget := 20, blockTimeTarget := 600, bestWork := 0 }

/-- `get_latest_block` = `self.chain[-1]`.  The source indexes an always
non-empty chain; the default is never read on states reachable from
`initState`. -/
def getLatestBlock (M : HashModel) (s : Chain5470) : Block :=
  s.chain.getLastD (genesisBlock M)

/-- `add_transaction_to_mempool`: reject only when the transaction is not
coinbase-tagged and its signature fails; otherwise append to the mempool
and report success. -/
def addTransactionToMempool (M : HashModel) (s : Chain5470) (tx : Transaction) :
    Bool × Chain5470 :=
  if !tx.isCoinbase && !M.verifySig tx then (false, s)
  else (true, { s with mempool := s.mempool ++ [tx] })

/-- `_create_coinbase_transaction`: fixed `block_reward = 50.0` paid to the
mining address, independent of the chain height. -/
def createCoinbaseTransaction (miningAddress : String) (now : ℚ) : Transaction :=
  { txId := "coinbase_" ++ toString now, inputs := [],
    outputs := [(miningAddress, 50)], amount := 50, fee := 0,
    timestamp := now, signature := "coinbase_signature",
    publicKey := "coinbase_public_key", isCoinbase := true }

/-- The last ten blocks `self.chain[-10:]` examined by `_adjust_difficulty`. -/
def retargetWindow (s : Chain5470) : List Block :=
  s.chain.drop (s.chain.length - 10)

/-- `avg_block_time`: the time between the window's first and last block
timestamps divided by the 9 intervals spanned. -/
def observedAvgBlockTime (s : Chain5470) : ℚ :=
  (((retargetWindow s).getLastD default).header.timestamp
      - ((retargetWindow s).headD default).header.timestamp) / 9

/-- `_adjust_difficulty`: no retarget below 10 blocks; +1 when the observed
average is under half the target block time (`* 0.5`), −1 floored at 1 when
over double, else unchanged. -/
def adjustDifficulty (s : Chain5470) : Chain5470 :=
  if s.chain.length < 10 then s
  else if observedAvgBlockTime s < s.blockTimeTarget * (1 / 2 : ℚ) then
    { s with difficultyTarget := s.difficultyTarget + 1 }
  else if s.blockTimeTarget * 2 < observedAvgBlockTime s then
    { s with difficultyTarget := max 1 (s.difficultyTarget - 1) }
  else s

/-- `_add_block_to_chain`: verify the block (Merkle root, signatures, PoW —
note: no linkage or work comparison), then append it, set
`best_work = block.work` and run the retarget check.  Returns whether the
block was accepted, paired with the updated state. -/
def addBlockToChain (M : HashModel) (s : Chain5470) (b : Block) : Bool × Chain5470 :=
  if !verifyBlock M b then (false, s)
  else (true, adjustDifficulty { s with chain := s.chain ++ [b], bestWork := b.work })

/-- The `while True` nonce search of `mine_block`: increment the nonce,
rehash, stop as soon as the hash is under the target.  The source loop also
exits (returning `None`) when `self.mining` is cleared by a concurrent
`stop_mining`; that external cancellation is modelled by the fuel running
out. -/
def powSearch (M : HashModel) (target : Nat) : Nat → BlockHeader → Option BlockHeader
  | 0, _ => none
  | fuel + 1, hd =>
      let hd1 := { hd with nonce := hd.nonce + 1 }
      if M.headerHash hd1 < target then some hd1 else powSearch M target fuel hd1

/-- The transaction list assembled by `mine_block`: the fresh coinbase in
front of the first ten mempool transactions (`self.mempool[:10]`). -/
def mineTxs (s : Chain5470) (addr : String) (now : ℚ) : List Transaction :=
  createCoinbaseTransaction addr now :: s.mempool.take 10

/-- The candidate header built by `mine_block` before the nonce search:
linked to the current tip, stamped with the current difficulty, with the
Merkle root of the assembled transactions filled in. -/
def mineHeader (M : HashModel) (s : Chain5470) (addr : String) (now : ℚ) : BlockHeader :=
  { version := 1, prevHash := M.headerHash (getLatestBlock M s).header,
    merkleRoot := calcMerkleRoot M (mineTxs s addr now), timestamp := now,
    nBits := s.difficultyTarget, nonce := 0,
    height := (getLatestBlock M s).header.height + 1 }

/-- The block assembled by `mine_block` once the nonce search has found the
header `hd`: `work = latest.work + 2 ** difficulty_target`. -/
def minedBlock (M : HashModel) (s : Chain5470) (addr : String) (now : ℚ)
    (hd : BlockHeader) : Block :=
  { header := hd, transactions := mineTxs s addr now,
    work := (getLatestBlock M s).work + 2 ^ s.difficultyTarget }

/-- `mine_block`: build the candidate, run the nonce search against
`2 ** (256 - difficulty_target)`; on success hand the assembled block to
`_add_block_to_chain` (its boolean result is ignored by the source), then
remove each mined non-coinbase transaction from the mempool
(`if tx in self.mempool: self.mempool.remove(tx)` = erase first
occurrence).  On cancellation return `None` with the state unchanged. -/
def mineBlock (M : HashModel) (s : Chain5470) (addr : String) (now : ℚ) (fuel : Nat) :
    Option Block × Chain5470 :=
  match powSearch M (2 ^ (256 - s.difficultyTarget)) fuel (mineHeader M s addr now) with
  | none => (none, s)
  | some hd =>
      let newBlock := minedBlock M s addr now hd
      let afterAdd := (addBlockToChain M s newBlock).2
      (some newBlock,
        { afterAdd with
            mempool := (s.mempool.take 10).foldl (fun mp tx => mp.erase tx) afterAdd.mempool })

/-- The operations that drive a `Blockchain5470` instance in the source:
transaction submission and one pass of the mining worker. -/
inductive Step (M : HashModel) : Chain5470 → Chain5470 → Prop
  | submitTx (s : Chain5470) (tx : Transaction) :
      Step M s (addTransactionToMempool M s tx).2
  | mine (s : Chain5470) (addr : String) (now : ℚ) (fuel : Nat) :
      Step M s (mineBlock M s addr now fuel).2

/-- States reachable from the genesis-initialized instance by the driver
operations. -/
inductive Reachable (M : HashModel) : Chain5470 → Prop
  | init : Reachable M (initState M)
  | step (s t : Chain5470) : Reachable M s → Step M s t → Reachable M t

/-- Chain linkage: every block's `prev_hash` is the hash of its
predecessor and its height is the predecessor's height plus one. -/
def LinkedChain (M : HashModel) (c : List Block) : Prop :=
  List.Chain'
    (fun a b => b.header.prevHash = M.headerHash a.header ∧
      b.header.height = a.header.height + 1) c

end BC5470

/-- Python's `str.startswith(p)`: `p`'s characters are a prefix of `s`'s.
(`String.startsWith` of the Lean library has the same meaning but is
defined by byte-position recursion that a kernel evaluation cannot unfold,
so the character-list form is used throughout.) -/
def strStartsWith (s p : String) : Bool := p.data.isPrefixOf s.data

namespace Synced

/-- Transactions of `src/blockchain_5470_synced_ai_zk.py`: the ordinary
signed `Transaction` (amounts are integers in `BASE_UNIT`) and the
`ShieldedTransaction` carrying a commitment and a proof.  The bytes field
`data` and the signature are carried as strings. -/
inductive STx
  | normal (fromAddress toAddress : String) (amount : Int) (nonce : Nat)
      (timestamp : Int) (dataHex : String) (chainId : Nat) (signature : Option String)
  | shielded (commitment proof : String) (nonce : Nat) (timestamp : Int)
deriving DecidableEq, Repr, Inhabited

/-- Block of `src/blockchain_5470_synced_ai_zk.py`: index, transactions,
previous hash, timestamp, nonce, and the stored `hash` field. -/
structure SBlock where
  index : Nat
  transactions : List STx
  previousHash : String
  timestamp : Int
  nonce : Nat
  hash : String
deriving DecidableEq, Repr, Inhabited

/-- Ledger state of the synced `Blockchain`: the chain, the derived
balance and nonce tables (Python dicts with default 0, modelled as total
functions), and the pending pool. -/
structure SState where
  chain : List SBlock
  balances : String → Int
  nonces : String → Nat
  pending : List STx

/-- `Block.calculate_hash` is `sha3_256` over the JSON of
`(index, transactions, timestamp, previous_hash, nonce)` — the stored
`hash` field is not part of the digest.  It is kept abstract as a function
of exactly those five fields. -/
def SCalcHash : Type :=
  Nat → List STx → Int → String → Nat → String

/-- The per-transaction balance/nonce replay shared by `add_block` and
`_recompute_balances_and_nonces`: shielded transactions only bump the
`"shielded"` nonce; `system`/`genesis` senders only credit the recipient;
otherwise debit the sender by amount plus fee, credit the recipient, pay
the fee to the miner and bump the sender's nonce.  `fee` abstracts
`int(tx.amount * COMMISSION_RATE)` (a float product truncated to int). -/
def applyTx (minerAddress : String) (fee : Int → Int) (s : SState) (tx : STx) : SState :=
  match tx with
  | .shielded _ _ _ _ =>
      { s with nonces := fun a => if a = "shielded" then s.nonces a + 1 else s.nonces a }
  | .normal f t amt _ _ _ _ _ =>
      if f = "system" ∨ f = "genesis" then
        { s with balances := fun a => if a = t then s.balances a + amt else s.balances a }
      else
        let bal1 : String → Int := fun a => if a = f then s.balances a - amt - fee amt else s.balances a
        let bal2 : String → Int := fun a => if a = t then bal1 a + amt else bal1 a
        let bal3 : String → Int := fun a => if a = minerAddress then bal2 a + fee amt else bal2 a
        { s with balances := bal3,
                 nonces := fun a => if a = f then s.nonces a + 1 else s.nonces a }

/-- `Blockchain.add_block`: reject when `previous_hash` does not match the
tip's stored hash, when the stored `hash` differs from the recomputed one,
or when the hash does not start with `"0" * POW_DIFFICULTY`; otherwise
append and replay the block's transactions into the balance/nonce tables.
(`_save_state` is disk I/O and carries no ledger state.)  The source reads
`self.chain[-1]`; the default is never consulted on a non-empty chain. -/
def addBlock (calcHash : SCalcHash) (powDifficulty : Nat) (minerAddress : String)
    (fee : Int → Int) (s : SState) (b : SBlock) : Bool × SState :=
  let prev := s.chain.getLastD default
  if b.previousHash ≠ prev.hash then (false, s)
  else if b.hash ≠ calcHash b.index b.transactions b.timestamp b.previousHash b.nonce then
    (false, s)
  else if !(strStartsWith b.hash (String.mk (List.replicate powDifficulty '0'))) then (false, s)
  else
    (true, b.transactions.foldl (applyTx minerAddress fee) { s with chain := s.chain ++ [b] })

/-- `BASE_UNIT`: the smallest unit, `10 ** 8` by default. -/
def baseUnit : Nat := 10 ^ 8

/-- `BLOCK_REWARD_INITIAL = int(50 * BASE_UNIT)` with the default config. -/
def blockRewardInitial : Nat := 50 * baseUnit

/-- `Blockchain.get_block_reward`: halve the initial reward once per
210000 blocks of height (integer right-shift), zero from the 64th halving
on. -/
def getBlockReward (height : Nat) : Nat :=
  if height / 210000 < 64 then blockRewardInitial >>> (height / 210000) else 0

end Synced

namespace RB

/-- Transaction of `src/core/blockchain.py` (`RealBlockchain`): sender,
recipient, float amount (modelled as a rational), timestamp, signature and
the stored `tx_hash`. -/
structure RTx where
  fromAddress : String
  toAddress : String
  amount : ℚ
  timestamp : ℚ
  signature : String
  txHash : String
deriving DecidableEq, Repr, Inhabited

/-- Block of `src/core/blockchain.py`. -/
structure RBlock where
  index : Nat
  timestamp : ℚ
  transactions : List RTx
  previousHash : String
  nonce : Nat
  hash : String
  merkleRoot : String
  difficulty : Nat
deriving DecidableEq, Repr, Inhabited

/-- State of a `RealBlockchain`: chain, pending pool, the
`mining_reward = 10.0`, the difficulty, and the materialized balance table
(a dict with default `0.0`, modelled as a total function). -/
structure RState where
  chain : List RBlock
  pending : List RTx
  miningReward : ℚ
  difficulty : Nat
  balances : String → ℚ

/-- `Transaction.calculate_hash`: sha256 over the concatenation of the
four transaction fields — kept abstract as a function of those fields. -/
def RTxHash : Type := String → String → ℚ → ℚ → String

/-- `RealBlockchain.verify_transaction`: the stored `tx_hash` matches the
recomputed hash. -/
def verifyTransaction (H : RTxHash) (tx : RTx) : Bool :=
  tx.txHash = H tx.fromAddress tx.toAddress tx.amount tx.timestamp

/-- `RealBlockchain.add_transaction`: for a non-reward sender, require the
hash check and a confirmed balance at least the amount (the check reads
only the materialized `balances`, not pending spends); then store the
recomputed hash on the transaction and queue it. -/
def addTransaction (H : RTxHash) (s : RState) (tx : RTx) : Bool × RState :=
  if tx.fromAddress ≠ "0" ∧ ¬verifyTransaction H tx then (false, s)
  else if tx.fromAddress ≠ "0" ∧ s.balances tx.fromAddress < tx.amount then (false, s)
  else
    let tx1 := { tx with txHash := H tx.fromAddress tx.toAddress tx.amount tx.timestamp }
    (true, { s with pending := s.pending ++ [tx1] })

/-- One transaction of `update_balances_from_block`: debit the sender
(unless it is the `"0"` reward source), credit the recipient; missing
addresses enter the table at 0 first. -/
def updateBalancesTx (bal : String → ℚ) (tx : RTx) : String → ℚ :=
  let bal1 : String → ℚ :=
    if tx.fromAddress ≠ "0" then
      fun a => if a = tx.fromAddress then bal a - tx.amount else bal a
    else bal
  fun a => if a = tx.toAddress then bal1 a + tx.amount else bal1 a

/-- `RealBlockchain.update_balances_from_block`: replay every transaction
of the block into the balance table. -/
def updateBalancesFromBlock (bal : String → ℚ) (b : RBlock) : String → ℚ :=
  b.transactions.foldl updateBalancesTx bal

/-- `RealBlockchain.mine_pending_transactions`: build the reward
transaction (`from_address = "0"`), put it in front of the pending pool,
assemble the block on top of the tip and append it unconditionally, update
the balances from the block and clear the pool.  `Block.mine_block` only
searches a nonce whose hash has `difficulty` leading zeros and fills the
`merkle_root`; acceptance does not depend on them, so the found nonce and
the hash/merkle oracles are passed in. -/
def minePendingTransactions (H : RTxHash) (blockHash : RBlock → String)
    (merkle : List RTx → String) (s : RState) (addr : String) (now : ℚ) (nonce : Nat) :
    RBlock × RState :=
  let rewardTx : RTx :=
    { fromAddress := "0", toAddress := addr, amount := s.miningReward,
      timestamp := now, signature := "", txHash := H "0" addr s.miningReward now }
  let txs := rewardTx :: s.pending
  let base : RBlock :=
    { index := s.chain.length, timestamp := now, transactions := txs,
      previousHash := (s.chain.getLastD default).hash, nonce := nonce,
      hash := "", merkleRoot := merkle txs, difficulty := s.difficulty }
  let b := { base with hash := blockHash base }
  (b, { s with chain := s.chain ++ [b],
               balances := updateBalancesFromBlock s.balances b,
               pending := [] })

end RB

namespace CN

/-- Transaction of `src/core/node.py` (`CoreNode`). -/
structure NTx where
  fromAddress : String
  toAddress : String
  amount : Int
  timestamp : ℚ
  nonce : Nat
  signature : String
  txHash : String
deriving DecidableEq, Repr, Inhabited

/-- Block of `src/core/node.py`; `hash` is the stored field set by
`__post_init__` (a received block carries whatever its sender stored). -/
structure NBlock where
  index : Nat
  transactions : List NTx
  previousHash : String
  timestamp : ℚ
  nonce : Nat
  hash : String
deriving DecidableEq, Repr, Inhabited

/-- State of a `CoreNode`: the chain, the mempool and the UTXO index
(a dict address → transaction list, modelled as a total function with
default `[]`). -/
structure NState where
  blockchain : List NBlock
  mempool : List NTx
  utxoSet : String → List NTx

/-- `CoreNode.validate_block`: height-0 blocks only need index 0 on an
empty chain; otherwise the index must be the tip's plus one, the
`previous_hash` must equal the tip's stored hash, and the stored hash must
start with `"0000"`. -/
def validateBlock (s : NState) (b : NBlock) : Bool :=
  match s.blockchain.getLast? with
  | none => b.index = 0
  | some last =>
      if b.index = last.index + 1 ∧ b.previousHash = last.hash then
        strStartsWith b.hash "0000"
      else false

/-- `CoreNode.update_utxo_set`: append each transaction under its
recipient (the spent-side removal is a `pass` in the source). -/
def updateUtxoSet (s : NState) (b : NBlock) : NState :=
  { s with
      utxoSet := b.transactions.foldl
        (fun u tx => fun a => if a = tx.toAddress then u a ++ [tx] else u a) s.utxoSet }

/-- `CoreNode.add_block`: append and update the UTXO index when
`validate_block` passes, otherwise do nothing.  The mempool is not
touched on this path (`save_blockchain` is disk I/O). -/
def addBlock (s : NState) (b : NBlock) : NState :=
  if validateBlock s b then updateUtxoSet { s with blockchain := s.blockchain ++ [b] } b
  else s

end CN

/-! ### Helper lemmas about the `Blockchain5470` embedding -/

namespace BC5470

theorem powSearch_eq_some (M : HashModel) (target : Nat) :
    ∀ (fuel : Nat) (hd hd1 : BlockHeader), powSearch M target fuel hd = some hd1 →
      M.headerHash hd1 < target ∧ hd1.prevHash = hd.prevHash ∧
        hd1.merkleRoot = hd.merkleRoot ∧ hd1.timestamp = hd.timestamp ∧
        hd1.nBits = hd.nBits ∧ hd1.height = hd.height
  | 0, hd, hd1 => by simp [powSearch]
  | fuel + 1, hd, hd1 => by
      intro h
      simp only [powSearch] at h
      split at h
      · injection h with h2
        subst h2
        exact ⟨by assumption, rfl, rfl, rfl, rfl, rfl⟩
      · exact powSearch_eq_some M target fuel { hd with nonce := hd.nonce + 1 } hd1 h

theorem adjustDifficulty_preserves (s : Chain5470) :
    (adjustDifficulty s).chain = s.chain ∧ (adjustDifficulty s).mempool = s.mempool ∧
      (adjustDifficulty s).bestWork = s.bestWork := by
  unfold adjustDifficulty
  split_ifs <;> exact ⟨rfl, rfl, rfl⟩

theorem addTransactionToMempool_preserves (M : HashModel) (s : Chain5470) (tx : Transaction) :
    (addTransactionToMempool M s tx).2.chain = s.chain ∧
      (addTransactionToMempool M s tx).2.bestWork = s.bestWork := by
  unfold addTransactionToMempool
  split <;> exact ⟨rfl, rfl⟩

theorem addBlockToChain_cases (M : HashModel) (s : Chain5470) (b : Block) :
    (verifyBlock M b = false ∧ addBlockToChain M s b = (false, s)) ∨
    (verifyBlock M b = true ∧
      addBlockToChain M s b =
        (true, adjustDifficulty { s with chain := s.chain ++ [b], bestWork := b.work })) := by
  unfold addBlockToChain
  cases hv : verifyBlock M b with
  | false => exact Or.inl ⟨rfl, by simp⟩
  | true => exact Or.inr ⟨rfl, by simp⟩

theorem mineBlock_spec (M : HashModel) (s : Chain5470) (addr : String) (now : ℚ)
    (fuel : Nat) (b : Block) (h : (mineBlock M s addr now fuel).1 = some b) :
    ∃ hd, powSearch M (2 ^ (256 - s.difficultyTarget)) fuel (mineHeader M s addr now) = some hd ∧
      b = minedBlock M s addr now hd ∧
      (mineBlock M s addr now fuel).2 =
        { (addBlockToChain M s b).2 with
            mempool := (s.mempool.take 10).foldl (fun mp tx => mp.erase tx)
              (addBlockToChain M s b).2.mempool } := by
  rcases hps : powSearch M (2 ^ (256 - s.difficultyTarget)) fuel (mineHeader M s addr now)
    with _ | hd
  · exfalso
    unfold mineBlock at h
    rw [hps] at h
    exact Option.noConfusion h
  · have hb : b = minedBlock M s addr now hd := by
      unfold mineBlock at h
      rw [hps] at h
      exact (Option.some.inj h).symm
    refine ⟨hd, rfl, hb, ?_⟩
    subst hb
    unfold mineBlock
    rw [hps]

theorem mineBlock_none_snd (M : HashModel) (s : Chain5470) (addr : String) (now : ℚ)
    (fuel : Nat) (h : (mineBlock M s addr now fuel).1 = none) :
    (mineBlock M s addr now fuel).2 = s := by
  rcases hps : powSearch M (2 ^ (256 - s.difficultyTarget)) fuel (mineHeader M s addr now)
    with _ | hd
  · unfold mineBlock
    rw [hps]
  · exfalso
    unfold mineBlock at h
    rw [hps] at h
    exact Option.noConfusion h

theorem foldl_erase_take {α : Type} [BEq α] [LawfulBEq α] :
    ∀ (xs : List α) (n : Nat), (xs.take n).foldl (fun m t => m.erase t) xs = xs.drop n
  | _, 0 => by simp
  | [], _ + 1 => by simp
  | x :: l, n + 1 => by
      simp only [List.take_succ_cons, List.foldl_cons, List.erase_cons_head,
        List.drop_succ_cons]
      exact foldl_erase_take l n

theorem pairUp_length (sha : String → String) :
    ∀ l : List String, (pairUp sha l).length = l.length / 2
  | [] => by simp [pairUp]
  | [_] => by simp [pairUp]
  | a :: b :: t => by
      simp only [pairUp, List.length_cons]
      rw [pairUp_length sha t]
      omega

theorem merkleLevelStep_length (sha : String → String) (l : List String)
    (h2 : 2 ≤ l.length) : (merkleLevelStep sha l).length ≤ l.length - 1 := by
  unfold merkleLevelStep
  split_ifs with hodd
  · rw [pairUp_length]
    simp only [List.length_append, List.length_cons, List.length_nil]
    omega
  · rw [pairUp_length]
    omega

theorem merkleFoldAux_fuel (sha : String → String) :
    ∀ (f1 f2 : Nat) (l : List String), l.length ≤ f1 → l.length ≤ f2 →
      merkleFoldAux sha f1 l = merkleFoldAux sha f2 l
  | _, _, [], _, _ => by simp [merkleFoldAux]
  | _, _, [a], _, _ => by simp [merkleFoldAux]
  | 0, _, _ :: _ :: _, h1, _ => by simp at h1
  | _ + 1, 0, _ :: _ :: _, _, h2 => by simp at h2
  | f1 + 1, f2 + 1, a :: b :: t, h1, h2 => by
      simp only [merkleFoldAux]
      have hstep := merkleLevelStep_length sha (a :: b :: t)
        (by simp only [List.length_cons]; omega)
      simp only [List.length_cons] at h1 h2 hstep
      exact merkleFoldAux_fuel sha f1 f2 _ (by omega) (by omega)

/-- The inductive invariant carried along `Reachable`: the chain is never
empty, it is hash/height linked, and `best_work` never exceeds the tip's
work. -/
def GoodState (M : HashModel) (s : Chain5470) : Prop :=
  s.chain ≠ [] ∧ LinkedChain M s.chain ∧
    s.bestWork ≤ (s.chain.getLastD (genesisBlock M)).work

theorem goodState_init (M : HashModel) : GoodState M (initState M) := by
  refine ⟨by simp [initState], ?_, ?_⟩
  · exact List.chain'_singleton _
  · simp [initState, genesisBlock]

theorem goodState_step (M : HashModel) (s t : Chain5470) (hg : GoodState M s)
    (hstep : Step M s t) : GoodState M t := by
  obtain ⟨hne, hlink, hwork⟩ := hg
  cases hstep with
  | submitTx tx =>
      obtain ⟨hc, hw⟩ := addTransactionToMempool_preserves M s tx
      exact ⟨hc ▸ hne, hc ▸ hlink, hw ▸ hc ▸ hwork⟩
  | mine addr now fuel =>
      cases hOpt : (mineBlock M s addr now fuel).1 with
      | none =>
          rw [mineBlock_none_snd M s addr now fuel hOpt]
          exact ⟨hne, hlink, hwork⟩
      | some b =>
          obtain ⟨hd, hps, hb, hsnd⟩ := mineBlock_spec M s addr now fuel b hOpt
          obtain ⟨hhash, hprev, hmr, hts, hnb, hht⟩ :=
            powSearch_eq_some M _ fuel _ hd hps
          rw [hsnd]
          rcases addBlockToChain_cases M s b with ⟨hv, hadd⟩ | ⟨hv, hadd⟩
          · rw [hadd]
            exact ⟨hne, hlink, hwork⟩
          · rw [hadd]
            obtain ⟨hc, hm, hw⟩ :=
              adjustDifficulty_preserves { s with chain := s.chain ++ [b], bestWork := b.work }
            refine ⟨?_, ?_, ?_⟩
            · show (adjustDifficulty _).chain ≠ []
              rw [hc]; simp
            · show LinkedChain M (adjustDifficulty _).chain
              rw [hc]
              refine List.chain'_append.2 ⟨hlink, List.chain'_singleton _, ?_⟩
              intro x hx y hy
              simp only [List.head?_cons, Option.mem_def, Option.some.injEq] at hy
              subst hy
              have hx2 : s.chain.getLastD (genesisBlock M) = x := by
                rw [List.getLastD_eq_getLast?, hx]
                rfl
              constructor
              · rw [hb]
                show hd.prevHash = M.headerHash x.header
                rw [hprev]
                show (mineHeader M s addr now).prevHash = M.headerHash x.header
                unfold mineHeader getLatestBlock
                rw [hx2]
              · rw [hb]
                show hd.height = x.header.height + 1
                rw [hht]
                show (mineHeader M s addr now).height = x.header.height + 1
                unfold mineHeader getLatestBlock
                rw [hx2]
            · show (adjustDifficulty _).bestWork ≤
                ((adjustDifficulty _).chain.getLastD (genesisBlock M)).work
              rw [hc, hw]
              simp only [List.getLastD_eq_getLast?, List.getLast?_concat]
              exact le_refl _

theorem reachable_good (M : HashModel) (s : Chain5470) (h : Reachable M s) :
    GoodState M s := by
  induction h with
  | init => exact goodState_init M
  | step s t _ hstep ih => exact goodState_step M s t ih hstep

/-- A concrete instantiation of the abstract hash oracles, used to run the
embedding on closed inputs: every header hashes to 0 (which passes any
power-of-two target), transaction hashes and the string hash are
constants, and every signature verifies.  The behaviours exhibited with it
(which checks `_add_block_to_chain` does or does not perform) do not
depend on these choices. -/
def cxHash : HashModel :=
  { headerHash := fun _ => 0, txHash := fun _ => "t",
    shaHex := fun _ => "s", verifySig := fun _ => true }

/-- A block whose `prev_hash` (999) matches nothing and whose height (77)
is not the tip's height plus one, yet which satisfies every check of
`verify_block` under `cxHash`: correct Merkle root for its empty
transaction list, no signatures to check, hash 0 under the target. -/
def cxUnlinkedBlock : Block :=
  { header :=
      { version := 1, prevHash := 999, merkleRoot := zeros64,
        timestamp := 0, nBits := 20, nonce := 0, height := 77 },
    transactions := [], work := 0 }

/-- Like `cxUnlinkedBlock` but carrying `work = 5`, linked nowhere. -/
def cxWork5Block : Block :=
  { header :=
      { version := 1, prevHash := 0, merkleRoot := zeros64,
        timestamp := 0, nBits := 20, nonce := 0, height := 1 },
    transactions := [], work := 5 }

/-- Like `cxWork5Block` but carrying `work = 0`. -/
def cxWork0Block : Block :=
  { header :=
      { version := 1, prevHash := 0, merkleRoot := zeros64,
        timestamp := 0, nBits := 20, nonce := 1, height := 1 },
    transactions := [], work := 0 }

/-- The state after `_add_block_to_chain` accepted `cxWork5Block` on the
genesis-initialized instance. -/
def cxAfterWork5 : Chain5470 := (addBlockToChain cxHash (initState cxHash) cxWork5Block).2

end BC5470

/-! ### Claim C1 — chain linkage -/

/-- Claim C1, counterexample: `Blockchain5470._add_block_to_chain` performs
no linkage validation.  Starting from the genesis-initialized instance, a
single block-append call with a block whose `prev_hash` (999) is not the
genesis hash and whose height (77) is not 1 is accepted (`verify_block`
checks only Merkle root, signatures and PoW), leaving a chain that
violates the linkage invariant. -/
theorem addBlockToChain_breaks_linkage :
    (BC5470.addBlockToChain BC5470.cxHash (BC5470.initState BC5470.cxHash)
        BC5470.cxUnlinkedBlock).1 = true ∧
    ¬ BC5470.LinkedChain BC5470.cxHash
        (BC5470.addBlockToChain BC5470.cxHash (BC5470.initState BC5470.cxHash)
          BC5470.cxUnlinkedBlock).2.chain := by
  constructor
  · decide
  · intro hlink
    have h2 := (List.chain'_cons.1 hlink).1
    revert h2
    decide

/-- Claim C1 (amended): the linkage invariant — every block's `prev_hash`
equals the hash of its predecessor and its height is the predecessor's
height plus one — holds on every state reachable from the
genesis-initialized `Blockchain5470` by the operations the source actually
drives it with (`add_transaction_to_mempool` and `mine_block`, the only
caller of `_add_block_to_chain`); the raw `_add_block_to_chain` gate
itself checks no linkage. -/
theorem reachable_chain_linked (M : BC5470.HashModel) (s : BC5470.Chain5470)
    (h : BC5470.Reachable M s) : BC5470.LinkedChain M s.chain :=
  (BC5470.reachable_good M s h).2.1

/-- Witness for C1: the reachability hypothesis discharged on the state
after one successful mining pass from genesis (a two-block chain). -/
theorem reachable_chain_linked_witness :
    BC5470.LinkedChain BC5470.cxHash
      (BC5470.mineBlock BC5470.cxHash (BC5470.initState BC5470.cxHash) "a" 0 1).2.chain :=
  reachable_chain_linked BC5470.cxHash _
    (BC5470.Reachable.step _ _ BC5470.Reachable.init (BC5470.Step.mine _ "a" 0 1))

/-! ### Claim C2 — mining postcondition -/

/-- Claim C2: whenever `mine_block` returns a block (rather than `None`
after cancellation), the returned header carries the difficulty it was
mined for (`n_bits = difficulty_target`) and its hash, as a big unsigned
integer, is strictly below `2 ** (256 - n_bits)` — exactly the inequality
`verify_block` checks, so the PoW gate accepts the returned header. -/
theorem mineBlock_pow_postcondition (M : BC5470.HashModel) (s : BC5470.Chain5470)
    (addr : String) (now : ℚ) (fuel : Nat) (b : BC5470.Block)
    (h : (BC5470.mineBlock M s addr now fuel).1 = some b) :
    b.header.nBits = s.difficultyTarget ∧
      M.headerHash b.header < 2 ^ (256 - b.header.nBits) := by
  obtain ⟨hd, hps, hb, _⟩ := BC5470.mineBlock_spec M s addr now fuel b h
  obtain ⟨hhash, _, _, _, hnb, _⟩ := BC5470.powSearch_eq_some M _ fuel _ hd hps
  subst hb
  constructor
  · exact hnb
  · show M.headerHash hd < 2 ^ (256 - hd.nBits)
    rw [hnb]
    exact hhash

/-- The block found by one mining pass on the genesis-initialized instance
under `cxHash`. -/
def wMined : BC5470.Block :=
  ((BC5470.mineBlock BC5470.cxHash (BC5470.initState BC5470.cxHash) "a" 0 1).1).getD default

/-- Witness for C2: the mining success hypothesis discharged on a concrete
one-step mining run. -/
theorem mineBlock_pow_postcondition_witness :
    (BC5470.mineBlock BC5470.cxHash (BC5470.initState BC5470.cxHash) "a" 0 1).1 =
        some wMined ∧
      (wMined.header.nBits = (BC5470.initState BC5470.cxHash).difficultyTarget ∧
        BC5470.cxHash.headerHash wMined.header < 2 ^ (256 - wMined.header.nBits)) :=
  ⟨rfl, mineBlock_pow_postcondition BC5470.cxHash (BC5470.initState BC5470.cxHash)
    "a" 0 1 wMined rfl⟩

/-! ### Claim C5 — fork-choice monotonicity -/

/-- Claim C5, counterexample: `_add_block_to_chain` sets
`best_work = block.work` with no comparison.  From the genesis-initialized
instance, accepting a (verified) block with `work = 5` and then one with
`work = 0` drives `best_work` from 5 down to 0: the cumulative work of the
tip decreases across a sequence of block-append calls. -/
theorem bestWork_decreases_on_accept :
    (BC5470.addBlockToChain BC5470.cxHash (BC5470.initState BC5470.cxHash)
        BC5470.cxWork5Block).1 = true ∧
    (BC5470.addBlockToChain BC5470.cxHash BC5470.cxAfterWork5 BC5470.cxWork0Block).1 = true ∧
    BC5470.cxAfterWork5.bestWork = 5 ∧
    (BC5470.addBlockToChain BC5470.cxHash BC5470.cxAfterWork5
        BC5470.cxWork0Block).2.bestWork < BC5470.cxAfterWork5.bestWork := by
  refine ⟨by decide, by decide, by decide, by decide⟩

/-- Claim C5 (amended): `best_work` never decreases across the operations
the source drives the ledger with (submission and mining passes) starting
from genesis: on the mining path each accepted block carries
`work = tip.work + 2 ** difficulty ≥ best_work`.  A raw
`_add_block_to_chain` call with a lower-`work` verified block resets
`best_work` downward (see the counterexample). -/
theorem bestWork_monotone (M : BC5470.HashModel) (s t : BC5470.Chain5470)
    (hr : BC5470.Reachable M s) (hstep : BC5470.Step M s t) :
    s.bestWork ≤ t.bestWork := by
  have hg := BC5470.reachable_good M s hr
  cases hstep with
  | submitTx tx =>
      exact ((BC5470.addTransactionToMempool_preserves M s tx).2).ge
  | mine addr now fuel =>
      cases hOpt : (BC5470.mineBlock M s addr now fuel).1 with
      | none =>
          rw [BC5470.mineBlock_none_snd M s addr now fuel hOpt]
      | some b =>
          obtain ⟨hd, hps, hb, hsnd⟩ := BC5470.mineBlock_spec M s addr now fuel b hOpt
          rw [hsnd]
          show s.bestWork ≤ (BC5470.addBlockToChain M s b).2.bestWork
          rcases BC5470.addBlockToChain_cases M s b with ⟨hv, hadd⟩ | ⟨hv, hadd⟩
          · rw [hadd]
          · rw [hadd]
            rw [(BC5470.adjustDifficulty_preserves _).2.2]
            show s.bestWork ≤ b.work
            rw [hb]
            show s.bestWork ≤ (BC5470.getLatestBlock M s).work + 2 ^ s.difficultyTarget
            exact le_trans hg.2.2 (Nat.le_add_right _ _)

/-- Witness for C5: the reachability and step hypotheses discharged on a
concrete mining step from genesis. -/
theorem bestWork_monotone_witness :
    (BC5470.initState BC5470.cxHash).bestWork ≤
      (BC5470.mineBlock BC5470.cxHash (BC5470.initState BC5470.cxHash) "a" 0 1).2.bestWork :=
  bestWork_monotone BC5470.cxHash _ _ BC5470.Reachable.init (BC5470.Step.mine _ "a" 0 1)

/-! ### Claim C10 — coinbase-tag bypass at the mempool -/

/-- Claim C10: for every transaction whose `is_coinbase` flag is set,
`add_transaction_to_mempool` returns `True` and appends it to the mempool
unconditionally — the statement quantifies over every signature oracle and
every state, so no signature, balance, nonce or duplicate-hash check can
be involved. -/
theorem coinbase_tag_bypasses_mempool_checks (M : BC5470.HashModel)
    (s : BC5470.Chain5470) (tx : BC5470.Transaction) (h : tx.isCoinbase = true) :
    BC5470.addTransactionToMempool M s tx =
      (true, { s with mempool := s.mempool ++ [tx] }) := by
  unfold BC5470.addTransactionToMempool
  rw [h]
  simp

/-- A signature oracle that rejects everything: even under it, a
coinbase-tagged transaction enters the pool. -/
def cxHashRejectAll : BC5470.HashModel :=
  { BC5470.cxHash with verifySig := fun _ => false }

/-- Witness for C10: the coinbase-flag hypothesis discharged on the genesis
coinbase transaction under the all-rejecting signature oracle. -/
theorem coinbase_tag_bypasses_mempool_checks_witness :
    BC5470.genesisTx.isCoinbase = true ∧
      BC5470.addTransactionToMempool cxHashRejectAll (BC5470.initState cxHashRejectAll)
          BC5470.genesisTx =
        (true, { BC5470.initState cxHashRejectAll with
                  mempool := (BC5470.initState cxHashRejectAll).mempool ++
                    [BC5470.genesisTx] }) :=
  ⟨rfl, coinbase_tag_bypasses_mempool_checks cxHashRejectAll
    (BC5470.initState cxHashRejectAll) BC5470.genesisTx rfl⟩

/-! ### Claim C4 — rejection atomicity -/

/-- Claim C4: when block acceptance rejects a candidate (returns `False`
at any validation gate), the ledger state is returned unchanged — for the
synced `Blockchain.add_block` (chain, balance table, nonce table and
pending pool all intact: every gate is checked before any mutation) and
for `Blockchain5470._add_block_to_chain` alike. -/
theorem rejection_preserves_state (calcHash : Synced.SCalcHash) (pd : Nat)
    (mAddr : String) (fee : Int → Int) (s : Synced.SState) (b : Synced.SBlock)
    (M : BC5470.HashModel) (s5 : BC5470.Chain5470) (b5 : BC5470.Block) :
    ((Synced.addBlock calcHash pd mAddr fee s b).1 = false →
      (Synced.addBlock calcHash pd mAddr fee s b).2 = s) ∧
    ((BC5470.addBlockToChain M s5 b5).1 = false →
      (BC5470.addBlockToChain M s5 b5).2 = s5) := by
  constructor
  · intro h
    simp only [Synced.addBlock] at h ⊢
    split_ifs at h ⊢ <;> rfl
  · intro h
    simp only [BC5470.addBlockToChain] at h ⊢
    split_ifs at h ⊢
    rfl

/-- Hash oracle for the synced chain used on closed inputs. -/
def sCalcHashConst : Synced.SCalcHash := fun _ _ _ _ _ => "h"

/-- Truncated 0.2% fee. -/
def sFee : Int → Int := fun a => a * 2 / 1000

/-- A stored genesis block for the synced chain with hash `"h0"`. -/
def sGenesisW : Synced.SBlock :=
  { index := 0, transactions := [], previousHash := String.mk (List.replicate 64 '0'),
    timestamp := 0, nonce := 0, hash := "h0" }

/-- A synced-chain state holding only `sGenesisW`. -/
def sStateW : Synced.SState :=
  { chain := [sGenesisW], balances := fun _ => 0, nonces := fun _ => 0, pending := [] }

/-- A candidate whose `previous_hash` (`"x"`) does not match the tip. -/
def sWrongPrev : Synced.SBlock :=
  { index := 1, transactions := [], previousHash := "x",
    timestamp := 0, nonce := 0, hash := "0000a" }

/-- A candidate failing `verify_block` (wrong Merkle root) for
`Blockchain5470`. -/
def cxBadMerkleBlock : BC5470.Block :=
  { header :=
      { version := 1, prevHash := 0, merkleRoot := "wrong",
        timestamp := 0, nBits := 20, nonce := 0, height := 1 },
    transactions := [], work := 0 }

/-- Witness for C4: both rejection hypotheses discharged on concrete
rejected candidates; the states come back unchanged. -/
theorem rejection_preserves_state_witness :
    ((Synced.addBlock sCalcHashConst 4 "m" sFee sStateW sWrongPrev).1 = false ∧
      (Synced.addBlock sCalcHashConst 4 "m" sFee sStateW sWrongPrev).2 = sStateW) ∧
    ((BC5470.addBlockToChain BC5470.cxHash (BC5470.initState BC5470.cxHash)
        cxBadMerkleBlock).1 = false ∧
      (BC5470.addBlockToChain BC5470.cxHash (BC5470.initState BC5470.cxHash)
        cxBadMerkleBlock).2 = BC5470.initState BC5470.cxHash) :=
  ⟨⟨rfl, (rejection_preserves_state sCalcHashConst 4 "m" sFee sStateW sWrongPrev
      BC5470.cxHash (BC5470.initState BC5470.cxHash) cxBadMerkleBlock).1 rfl⟩,
   ⟨by decide, (rejection_preserves_state sCalcHashConst 4 "m" sFee sStateW sWrongPrev
      BC5470.cxHash (BC5470.initState BC5470.cxHash) cxBadMerkleBlock).2 (by decide)⟩⟩

/-! ### Claim C6 — halving schedule -/

/-- Claim C6, counterexample: `Blockchain5470._create_coinbase_transaction`
pays the constant `block_reward = 50.0` — it does not even take the height
as an input — so the coinbase reward of the block mined at the halving
interval equals the height-0 reward instead of being half of it. -/
theorem coinbase_constant_reward_counterexample :
    (BC5470.createCoinbaseTransaction "m" 0).amount = 50 ∧
    (BC5470.createCoinbaseTransaction "m" 0).amount ≠
      (BC5470.createCoinbaseTransaction "m" 0).amount / 2 := by
  refine ⟨rfl, by norm_num [BC5470.createCoinbaseTransaction]⟩

/-- Claim C6 (amended): the halving schedule holds for the synced chain's
`get_block_reward` — the reward at height 210000 is exactly half the
height-0 reward (integer floor), each 210000-block interval halves the
reward, and the reward is 0 once the halving count reaches 64 — while
`Blockchain5470`'s coinbase pays a constant 50 at every height (see the
counterexample). -/
theorem getBlockReward_halving_schedule :
    Synced.getBlockReward 210000 = Synced.getBlockReward 0 / 2 ∧
    (∀ h : Nat, Synced.getBlockReward (h + 210000) = Synced.getBlockReward h / 2) ∧
    (∀ h : Nat, 64 ≤ h / 210000 → Synced.getBlockReward h = 0) := by
  refine ⟨by decide, ?_, ?_⟩
  · intro h
    unfold Synced.getBlockReward
    have hdiv : (h + 210000) / 210000 = h / 210000 + 1 :=
      Nat.add_div_right h (by norm_num)
    rw [hdiv]
    by_cases h1 : h / 210000 + 1 < 64
    · rw [if_pos h1, if_pos (by omega)]
      exact Nat.shiftRight_succ _ _
    · rw [if_neg h1]
      by_cases h2 : h / 210000 < 64
      · have hk63 : h / 210000 = 63 := by omega
        rw [if_pos h2, hk63]
        decide
      · rw [if_neg h2]
  · intro h hh
    unfold Synced.getBlockReward
    rw [if_neg (by omega)]

/-- Witness for C6: the halving-ceiling hypothesis discharged at the 64th
halving height. -/
theorem getBlockReward_halving_schedule_witness :
    64 ≤ 13440000 / 210000 ∧ Synced.getBlockReward 13440000 = 0 :=
  ⟨by norm_num, getBlockReward_halving_schedule.2.2 13440000 (by norm_num)⟩

/-! ### Claim C7 — difficulty retarget -/

/-- Claim C7: `_adjust_difficulty` never retargets a chain of fewer than
10 blocks; on a window of the last 10 blocks, with the observed average
`(window.last.timestamp - window.first.timestamp) / 9`, it adds exactly
one difficulty unit when the average is under half the target block
interval, subtracts exactly one unit floored at the minimum difficulty 1
when the average exceeds double the target, and otherwise leaves the state
unchanged.  (The target interval is positive — 600 in the source.) -/
theorem adjustDifficulty_retarget_rule (s : BC5470.Chain5470)
    (hT : 0 < s.blockTimeTarget) :
    (s.chain.length < 10 → BC5470.adjustDifficulty s = s) ∧
    (10 ≤ s.chain.length →
      (BC5470.observedAvgBlockTime s < s.blockTimeTarget / 2 →
        (BC5470.adjustDifficulty s).difficultyTarget = s.difficultyTarget + 1) ∧
      (s.blockTimeTarget * 2 < BC5470.observedAvgBlockTime s →
        (BC5470.adjustDifficulty s).difficultyTarget = max 1 (s.difficultyTarget - 1)) ∧
      (s.blockTimeTarget / 2 ≤ BC5470.observedAvgBlockTime s →
        BC5470.observedAvgBlockTime s ≤ s.blockTimeTarget * 2 →
        BC5470.adjustDifficulty s = s)) := by
  have hhalf : s.blockTimeTarget * (1 / 2 : ℚ) = s.blockTimeTarget / 2 := by ring
  constructor
  · intro hlen
    unfold BC5470.adjustDifficulty
    rw [if_pos hlen]
  · intro hlen
    refine ⟨?_, ?_, ?_⟩
    · intro hlt
      unfold BC5470.adjustDifficulty
      rw [if_neg (by omega), if_pos (by rw [hhalf]; exact hlt)]
    · intro hgt
      unfold BC5470.adjustDifficulty
      have h1 : ¬ BC5470.observedAvgBlockTime s < s.blockTimeTarget * (1 / 2 : ℚ) := by
        rw [hhalf]
        exact not_lt.2 (by linarith)
      rw [if_neg (by omega), if_neg h1, if_pos hgt]
    · intro hge hle
      unfold BC5470.adjustDifficulty
      rw [if_neg (by omega), if_neg (by rw [hhalf]; exact not_lt.2 hge),
        if_neg (not_lt.2 hle)]

/-- A ten-block chain whose first and last window timestamps coincide
(all blocks carry the genesis timestamp), so the observed average block
time is 0. -/
def cxTenChain : BC5470.Chain5470 :=
  { chain :=
      [BC5470.genesisBlock BC5470.cxHash, BC5470.genesisBlock BC5470.cxHash,
        BC5470.genesisBlock BC5470.cxHash, BC5470.genesisBlock BC5470.cxHash,
        BC5470.genesisBlock BC5470.cxHash, BC5470.genesisBlock BC5470.cxHash,
        BC5470.genesisBlock BC5470.cxHash, BC5470.genesisBlock BC5470.cxHash,
        BC5470.genesisBlock BC5470.cxHash, BC5470.genesisBlock BC5470.cxHash],
    mempool := [], difficultyTarget := 20, blockTimeTarget := 600, bestWork := 0 }

/-- Witness for C7: on the concrete ten-block chain the observed average
(0) is under half the 600-second target and the difficulty steps from 20
to 21. -/
theorem adjustDifficulty_retarget_rule_witness :
    0 < cxTenChain.blockTimeTarget ∧ 10 ≤ cxTenChain.chain.length ∧
    BC5470.observedAvgBlockTime cxTenChain < cxTenChain.blockTimeTarget / 2 ∧
    (BC5470.adjustDifficulty cxTenChain).difficultyTarget =
      cxTenChain.difficultyTarget + 1 := by
  have havg : BC5470.observedAvgBlockTime cxTenChain = 0 := by
    unfold BC5470.observedAvgBlockTime BC5470.retargetWindow cxTenChain
    norm_num [List.getLastD_eq_getLast?, BC5470.genesisBlock]
  have hlt : BC5470.observedAvgBlockTime cxTenChain < cxTenChain.blockTimeTarget / 2 := by
    rw [havg]
    show (0 : ℚ) < 600 / 2
    norm_num
  exact ⟨by decide, by decide, hlt,
    ((adjustDifficulty_retarget_rule cxTenChain (by decide)).2 (by decide)).1 hlt⟩

/-! ### Claim C8 — Merkle odd-count duplication -/

namespace BC5470

/-- Hash-list level of the duplication property: on an odd level of at
least 3 hashes, the loop itself appends the last hash before pairing, so
starting from the level with the last hash already duplicated reaches the
same root. -/
theorem merkleFold_duplicate (sha : String → String) (hs : List String) (x : String)
    (hlast : hs.getLast? = some x) (hodd : hs.length % 2 = 1) (hlen : 3 ≤ hs.length) :
    merkleFoldAux sha hs.length hs = merkleFoldAux sha (hs.length + 1) (hs ++ [x]) := by
  rcases hs with _ | ⟨a, _ | ⟨b, t⟩⟩
  · simp at hlen
  · simp at hlen
  · have hxt : (a :: b :: t).getLastD "" = x := by
      rw [List.getLastD_eq_getLast?, hlast]
      rfl
    have hLR : (a :: b :: t) ++ [x] = a :: b :: (t ++ [x]) := by simp
    have hstepL : merkleLevelStep sha (a :: b :: t) = pairUp sha (a :: b :: (t ++ [x])) := by
      unfold merkleLevelStep
      rw [if_pos hodd, hxt, hLR]
    have hparR : ¬ ((a :: b :: (t ++ [x])).length % 2 = 1) := by
      simp only [List.length_cons] at hodd
      simp only [List.length_cons, List.length_append, List.length_nil]
      omega
    have hstepR : merkleLevelStep sha (a :: b :: (t ++ [x])) =
        pairUp sha (a :: b :: (t ++ [x])) := by
      unfold merkleLevelStep
      rw [if_neg hparR]
    rw [hLR]
    simp only [List.length_cons, List.length_append, List.length_nil]
    conv_lhs => rw [merkleFoldAux]
    conv_rhs => rw [merkleFoldAux]
    rw [hstepL, hstepR]
    apply merkleFoldAux_fuel
    · rw [pairUp_length]
      simp only [List.length_cons, List.length_append, List.length_nil]
      omega
    · rw [pairUp_length]
      simp only [List.length_cons, List.length_append, List.length_nil]
      omega

end BC5470

/-- Claim C8: the Merkle commitment duplicates the last hash of an
odd-count level before pairing; hence for every transaction list of odd
length at least 3, `calculate_merkle_root` of the list equals
`calculate_merkle_root` of the list with its last element appended once
more — for every choice of the underlying hash oracles. -/
theorem calcMerkleRoot_duplicate_last (M : BC5470.HashModel)
    (txs : List BC5470.Transaction) (last : BC5470.Transaction)
    (hlast : txs.getLast? = some last) (hodd : txs.length % 2 = 1)
    (hlen : 3 ≤ txs.length) :
    BC5470.calcMerkleRoot M txs = BC5470.calcMerkleRoot M (txs ++ [last]) := by
  have hne : txs ≠ [] := by rintro rfl; simp at hlen
  have h1 : txs.isEmpty = false := List.isEmpty_eq_false.2 hne
  have h2 : (txs ++ [last]).isEmpty = false := List.isEmpty_eq_false.2 (by simp)
  unfold BC5470.calcMerkleRoot
  rw [if_neg (by simp [h1]), if_neg (by simp [h2])]
  simp only [List.map_append, List.map_cons, List.map_nil]
  have hlast2 : (txs.map M.txHash).getLast? = some (M.txHash last) := by
    rw [List.getLast?_map, hlast]
    rfl
  have hfuel : (txs.map M.txHash ++ [M.txHash last]).length = (txs.map M.txHash).length + 1 := by
    simp
  rw [hfuel]
  exact BC5470.merkleFold_duplicate M.shaHex (txs.map M.txHash) (M.txHash last) hlast2
    (by rw [List.length_map]; exact hodd) (by rw [List.length_map]; exact hlen)

/-- Three distinct transactions for the Merkle witness. -/
def w8a : BC5470.Transaction := { BC5470.genesisTx with txId := "w8a" }

/-- Second Merkle-witness transaction. -/
def w8b : BC5470.Transaction := { BC5470.genesisTx with txId := "w8b" }

/-- Third Merkle-witness transaction. -/
def w8c : BC5470.Transaction := { BC5470.genesisTx with txId := "w8c" }

/-- Witness for C8: the oddness/length hypotheses discharged on a concrete
three-transaction list. -/
theorem calcMerkleRoot_duplicate_last_witness :
    ([w8a, w8b, w8c] : List BC5470.Transaction).getLast? = some w8c ∧
    ([w8a, w8b, w8c] : List BC5470.Transaction).length % 2 = 1 ∧
    3 ≤ ([w8a, w8b, w8c] : List BC5470.Transaction).length ∧
    BC5470.calcMerkleRoot BC5470.cxHash [w8a, w8b, w8c] =
      BC5470.calcMerkleRoot BC5470.cxHash ([w8a, w8b, w8c] ++ [w8c]) :=
  ⟨rfl, rfl, by decide,
    calcMerkleRoot_duplicate_last BC5470.cxHash [w8a, w8b, w8c] w8c rfl rfl (by decide)⟩

/-! ### Claim C9 — mempool exclusivity -/

/-- A transaction sitting in the CoreNode mempool. -/
def n9Tx : CN.NTx :=
  { fromAddress := "x", toAddress := "y", amount := 1, timestamp := 0, nonce := 0,
    signature := "", txHash := "th" }

/-- A stored CoreNode genesis block whose stored hash is `"0000"`. -/
def n9Genesis : CN.NBlock :=
  { index := 0, transactions := [], previousHash := String.mk (List.replicate 64 '0'),
    timestamp := 0, nonce := 0, hash := "0000" }

/-- CoreNode state: genesis chain, `n9Tx` pending. -/
def n9State : CN.NState :=
  { blockchain := [n9Genesis], mempool := [n9Tx], utxoSet := fun _ => [] }

/-- A peer block containing `n9Tx` that passes `validate_block`. -/
def n9Block : CN.NBlock :=
  { index := 1, transactions := [n9Tx], previousHash := "0000", timestamp := 0,
    nonce := 0, hash := "0000b" }

/-- Claim C9, counterexample: on the peer-block acceptance path
(`CoreNode.add_block`), the mempool is not touched at all — a valid block
containing the pending transaction `n9Tx` is appended, yet `n9Tx`'s hash is
still in the mempool immediately after acceptance. -/
theorem addBlock_leaves_tx_in_mempool :
    CN.validateBlock n9State n9Block = true ∧
    (CN.addBlock n9State n9Block).blockchain = n9State.blockchain ++ [n9Block] ∧
    n9Tx ∈ n9Block.transactions ∧
    n9Tx.txHash ∈ (CN.addBlock n9State n9Block).mempool.map (fun t => t.txHash) := by
  refine ⟨by decide, by decide, by decide, by decide⟩

/-- Claim C9 (amended): eviction happens only on the local mining path:
after a successful `Blockchain5470.mine_block`, the mempool is exactly the
previous mempool with the selected `mempool[:10]` prefix erased
(first-occurrence removal), so when the mempool holds no duplicates every
mined non-coinbase transaction is absent afterwards.  Blocks accepted from
peers by `CoreNode.add_block` evict nothing (see the counterexample), and
an 11th queued copy of a mined transaction would survive even locally. -/
theorem mineBlock_evicts_selected (M : BC5470.HashModel) (s : BC5470.Chain5470)
    (addr : String) (now : ℚ) (fuel : Nat) (b : BC5470.Block)
    (h : (BC5470.mineBlock M s addr now fuel).1 = some b) :
    (BC5470.mineBlock M s addr now fuel).2.mempool = s.mempool.drop 10 ∧
      (s.mempool.Nodup → ∀ tx ∈ s.mempool.take 10,
        tx ∉ (BC5470.mineBlock M s addr now fuel).2.mempool) := by
  obtain ⟨hd, hps, hb, hsnd⟩ := BC5470.mineBlock_spec M s addr now fuel b h
  have hmp : (BC5470.addBlockToChain M s b).2.mempool = s.mempool := by
    rcases BC5470.addBlockToChain_cases M s b with ⟨_, hadd⟩ | ⟨_, hadd⟩
    · rw [hadd]
    · rw [hadd]
      exact (BC5470.adjustDifficulty_preserves _).2.1
  have hdrop : (BC5470.mineBlock M s addr now fuel).2.mempool = s.mempool.drop 10 := by
    rw [hsnd]
    show (s.mempool.take 10).foldl (fun mp tx => mp.erase tx)
        (BC5470.addBlockToChain M s b).2.mempool = s.mempool.drop 10
    rw [hmp]
    exact BC5470.foldl_erase_take s.mempool 10
  refine ⟨hdrop, fun hnd tx htx => ?_⟩
  rw [hdrop]
  have h2 : (s.mempool.take 10 ++ s.mempool.drop 10).Nodup := by
    rw [List.take_append_drop]
    exact hnd
  exact fun hmem => (List.nodup_append.1 h2).2.2 htx hmem

/-- A pending transaction for the mining-eviction witness. -/
def w9Tx : BC5470.Transaction :=
  { txId := "w9", inputs := [], outputs := [], amount := 1, fee := 0, timestamp := 0,
    signature := "sig", publicKey := "pk", isCoinbase := false }

/-- Genesis state with `w9Tx` queued. -/
def w9State : BC5470.Chain5470 :=
  { BC5470.initState BC5470.cxHash with mempool := [w9Tx] }

/-- The block mined from `w9State` in one search step. -/
def w9Mined : BC5470.Block :=
  ((BC5470.mineBlock BC5470.cxHash w9State "m" 0 1).1).getD default

/-- Witness for C9: the mining-success and no-duplicates hypotheses
discharged on a concrete run; the queued transaction is gone afterwards. -/
theorem mineBlock_evicts_selected_witness :
    (BC5470.mineBlock BC5470.cxHash w9State "m" 0 1).1 = some w9Mined ∧
    (BC5470.mineBlock BC5470.cxHash w9State "m" 0 1).2.mempool =
      w9State.mempool.drop 10 ∧
    w9Tx ∉ (BC5470.mineBlock BC5470.cxHash w9State "m" 0 1).2.mempool :=
  ⟨rfl,
   (mineBlock_evicts_selected BC5470.cxHash w9State "m" 0 1 w9Mined rfl).1,
   (mineBlock_evicts_selected BC5470.cxHash w9State "m" 0 1 w9Mined rfl).2
     (by decide) w9Tx (by decide)⟩

/-! ### Claim C3 — no negative balances -/

/-- Transaction-hash oracle for the `RealBlockchain` runs. -/
def rbHash : RB.RTxHash := fun _ _ _ _ => "h"

/-- Block-hash oracle for the `RealBlockchain` runs. -/
def rbBlockHash : RB.RBlock → String := fun _ => "0000"

/-- Merkle oracle for the `RealBlockchain` runs. -/
def rbMerkle : List RB.RTx → String := fun _ => "m"

/-- A mined genesis block (empty transaction list, as
`create_genesis_block` builds it). -/
def rbGenesis : RB.RBlock :=
  { index := 0, timestamp := 0, transactions := [], previousHash := "0", nonce := 0,
    hash := "0000", merkleRoot := "m", difficulty := 4 }

/-- Fresh `RealBlockchain` state: genesis chain, empty pool, reward 10,
difficulty 4, empty balance table. -/
def rbInit : RB.RState :=
  { chain := [rbGenesis], pending := [], miningReward := 10, difficulty := 4,
    balances := fun _ => 0 }

/-- State after mining one (empty) block to `"A"`: `A` holds the reward 10. -/
def rbS1 : RB.RState :=
  (RB.minePendingTransactions rbHash rbBlockHash rbMerkle rbInit "A" 1 0).2

/-- `A` sends its whole balance (10) to `B`; `tx_hash` matches the oracle. -/
def rbTxAB : RB.RTx :=
  { fromAddress := "A", toAddress := "B", amount := 10, timestamp := 2,
    signature := "", txHash := "h" }

/-- `A` sends its whole balance (10) a second time, to `C`. -/
def rbTxAC : RB.RTx :=
  { fromAddress := "A", toAddress := "C", amount := 10, timestamp := 3,
    signature := "", txHash := "h" }

/-- State after queueing `rbTxAB`. -/
def rbS2 : RB.RState := (RB.addTransaction rbHash rbS1 rbTxAB).2

/-- State after queueing `rbTxAC` (the balance gate still sees the
confirmed balance 10 — pending spends are not accounted). -/
def rbS3 : RB.RState := (RB.addTransaction rbHash rbS2 rbTxAC).2

/-- State after mining the block that confirms both spends. -/
def rbS4 : RB.RState :=
  (RB.minePendingTransactions rbHash rbBlockHash rbMerkle rbS3 "M" 4 0).2

/-- Claim C3 (code bug): `add_transaction` checks each submitted spend
against the confirmed balance only, so two pending transactions can each
spend the same funds; mining them into one block drives the replayed
balance of `A` from 10 to −10 — the derived balance table of an accepted
chain is negative, yet both transactions passed every gate
(`add_transaction` returned `True` twice). -/
theorem negative_balance_reachable :
    (RB.addTransaction rbHash rbS1 rbTxAB).1 = true ∧
    (RB.addTransaction rbHash rbS2 rbTxAC).1 = true ∧
    rbS1.balances "A" = 10 ∧
    rbS4.balances "A" = -10 := by
  have hA1 : rbS1.balances "A" = 10 := by
    norm_num [rbS1, rbInit, rbGenesis, rbHash, rbBlockHash, rbMerkle,
      RB.minePendingTransactions, RB.updateBalancesFromBlock, RB.updateBalancesTx]
  have h1 : (RB.addTransaction rbHash rbS1 rbTxAB).1 = true := by
    unfold RB.addTransaction
    rw [if_neg (by norm_num [RB.verifyTransaction, rbTxAB, rbHash]),
      if_neg (by norm_num [rbTxAB, hA1])]
  have hpend : rbS3.pending =
      [{ rbTxAB with txHash := "h" }, { rbTxAC with txHash := "h" }] := by
    have h2 : (RB.addTransaction rbHash rbS2 rbTxAC).1 = true := by
      unfold RB.addTransaction
      rw [if_neg (by norm_num [RB.verifyTransaction, rbTxAC, rbHash]),
        if_neg (by norm_num [rbTxAC, rbS2, RB.addTransaction,
          RB.verifyTransaction, rbTxAB, rbHash, hA1])]
    norm_num [rbS3, rbS2, RB.addTransaction, RB.verifyTransaction, rbTxAB, rbTxAC,
      rbHash, hA1, rbS1, rbInit, rbGenesis, rbBlockHash, rbMerkle,
      RB.minePendingTransactions, RB.updateBalancesFromBlock, RB.updateBalancesTx]
  have h2 : (RB.addTransaction rbHash rbS2 rbTxAC).1 = true := by
    unfold RB.addTransaction
    rw [if_neg (by norm_num [RB.verifyTransaction, rbTxAC, rbHash]),
      if_neg (by norm_num [rbTxAC, rbS2, RB.addTransaction,
        RB.verifyTransaction, rbTxAB, rbHash, hA1])]
  have hA4 : rbS4.balances "A" = -10 := by
    have hbal3 : rbS3.balances "A" = 10 := by
      norm_num [rbS3, rbS2, RB.addTransaction, RB.verifyTransaction, rbTxAB, rbTxAC,
        rbHash, hA1]
    norm_num [rbS4, hpend, hbal3, RB.minePendingTransactions,
      RB.updateBalancesFromBlock, RB.updateBalancesTx, rbTxAB, rbTxAC, rbHash,
      rbBlockHash, rbMerkle,
      show ("A" : String) ≠ "C" from by decide, show ("A" : String) ≠ "B" from by decide,
      show ("A" : String) ≠ "M" from by decide, show ("A" : String) ≠ "0" from by decide]
  exact ⟨h1, h2, hA1, hA4⟩
